import Mathlib

/-!
# VitalGuard 2.0 — verification of the alert-handling specification

A shallow embedding of the alert-related logic of the VitalGuard 2.0
repository.  The frontend utilities (`getBedColor`, `getRiskHex`,
`useAlarm`) are translated directly from the JavaScript source.  The
Alert Engine itself (threshold evaluator, spike detector, confidence
filter, suppression policy, alert log and active index) is present in
the repository only through its REST callers, so it is modelled from
the specification; every such definition is marked
`Modelled from the spec:` in its doc comment.
-/

namespace VitalGuard

/-- Association-list lookup: first entry whose key matches, if any. -/
def getAssoc {α β : Type} [DecidableEq α] : List (α × β) → α → Option β
  | [], _ => none
  | (k', v') :: rest, k => if k' = k then some v' else getAssoc rest k

/-- Association-list update: replace the first entry with the key in
place, or append a new entry at the end. -/
def setAssoc {α β : Type} [DecidableEq α] : List (α × β) → α → β → List (α × β)
  | [], k, v => [(k, v)]
  | (k', v') :: rest, k, v =>
    if k' = k then (k, v) :: rest else (k', v') :: setAssoc rest k v

/-- Association-list removal: drop every entry with the key. -/
def removeAssoc {α β : Type} [DecidableEq α] (l : List (α × β)) (k : α) : List (α × β) :=
  l.filter (fun e => decide (e.1 ≠ k))

/-- The three alert categories of the data model (spec §3). -/
inductive AlertType : Type
  | threshold
  | spike
  | confidence
deriving DecidableEq

/-- One patient's instantaneous measurement (spec §3), translated with
rational numbers for the JavaScript floats. -/
structure VitalReading : Type where
  hr : ℚ
  spo2 : ℚ
  sbp : ℚ
  dbp : ℚ
  rr : ℚ
  temp : ℚ
  timestamp : ℕ
deriving DecidableEq

/-- A per-patient risk prediction (spec §3): score in [0,100],
confidence in [0,1], millisecond timestamp. -/
structure RiskSample : Type where
  riskScore : ℚ
  confidence : ℚ
  timestamp : ℕ
deriving DecidableEq

/-- Transient alert candidate produced by the detectors (spec §3). -/
structure AlertCandidate : Type where
  patientId : String
  alertType : AlertType
  message : String
  riskScore : ℚ
  confidence : ℚ
  timestamp : ℕ
deriving DecidableEq

/-- Persisted alert record (spec §3): candidate fields plus identity,
suppression annotation and display enrichment. -/
structure Alert : Type where
  id : ℕ
  patientId : String
  alertType : AlertType
  message : String
  riskScore : ℚ
  confidence : ℚ
  timestamp : ℕ
  suppressed : Bool
  suppressedReason : Option String
  patientName : String
  bed : String
deriving DecidableEq

/-- Clinical threshold bounds with the defaults of
`src/frontend/src/pages/AdminPage.jsx` line 23. -/
structure Thresholds : Type where
  hrHigh : ℚ := 130
  hrLow : ℚ := 40
  spo2Low : ℚ := 90
  rrHigh : ℚ := 30
  tempHigh : ℚ := 39
  sbpLow : ℚ := 85
deriving DecidableEq

/-- Engine configuration: thresholds, confidence floor (AdminPage
default 0.75), spike threshold (AdminPage default 20), cooldown window
in milliseconds and spike-history depth (spec §4.2–§4.4). -/
structure Config : Type where
  thresholds : Thresholds := {}
  minConfidence : ℚ := mkRat 3 4
  spikeThreshold : ℚ := 20
  cooldownMs : ℕ := 60000
  historyN : ℕ := 5
deriving DecidableEq

/-- Modelled from the spec: §4.1 Threshold Evaluator, absent from src/.
Pure function from a vital reading and the threshold table to the list
of `threshold` candidates, one per breached bound, message naming the
metric, value and bound. -/
def thresholdEvaluator (t : Thresholds) (pid : String) (s : RiskSample)
    (v : VitalReading) : List AlertCandidate :=
  (if t.hrHigh < v.hr then
    [⟨pid, .threshold, "Heart Rate" ++ (" high: " ++ (toString v.hr ++ (" above " ++
      toString t.hrHigh))), s.riskScore, s.confidence, s.timestamp⟩] else [])
  ++ (if v.hr < t.hrLow then
    [⟨pid, .threshold, "Heart Rate" ++ (" low: " ++ (toString v.hr ++ (" below " ++
      toString t.hrLow))), s.riskScore, s.confidence, s.timestamp⟩] else [])
  ++ (if v.spo2 < t.spo2Low then
    [⟨pid, .threshold, "SpO2" ++ (" low: " ++ (toString v.spo2 ++ (" below " ++
      toString t.spo2Low))), s.riskScore, s.confidence, s.timestamp⟩] else [])
  ++ (if t.rrHigh < v.rr then
    [⟨pid, .threshold, "Respiration Rate" ++ (" high: " ++ (toString v.rr ++ (" above " ++
      toString t.rrHigh))), s.riskScore, s.confidence, s.timestamp⟩] else [])
  ++ (if t.tempHigh < v.temp then
    [⟨pid, .threshold, "Temperature" ++ (" high: " ++ (toString v.temp ++ (" above " ++
      toString t.tempHigh))), s.riskScore, s.confidence, s.timestamp⟩] else [])
  ++ (if v.sbp < t.sbpLow then
    [⟨pid, .threshold, "Systolic BP" ++ (" low: " ++ (toString v.sbp ++ (" below " ++
      toString t.sbpLow))), s.riskScore, s.confidence, s.timestamp⟩] else [])

/-- Modelled from the spec: §4.2 Spike Detector history, absent from
src/ — per patient, the most recent risk scores, newest first. -/
def histFor (h : List (String × List ℚ)) (pid : String) : List ℚ :=
  (getAssoc h pid).getD []

/-- Modelled from the spec: §4.2 Spike Detector, absent from src/.
Emits one `spike` candidate when the delta from the previous sample is
at least the spike threshold; the first sample for a patient never
triggers; the per-patient history keeps the last `historyN` scores. -/
def spikeDetector (cfg : Config) (h : List (String × List ℚ)) (pid : String)
    (s : RiskSample) : List AlertCandidate × List (String × List ℚ) :=
  let prevList := histFor h pid
  let cands :=
    match prevList with
    | [] => []
    | prev :: _ =>
      if cfg.spikeThreshold ≤ s.riskScore - prev then
        [⟨pid, .spike, "Risk score spike: " ++ toString prev ++ " to " ++
          toString s.riskScore, s.riskScore, s.confidence, s.timestamp⟩]
      else []
  (cands, setAssoc h pid ((s.riskScore :: prevList).take cfg.historyN))

/-- The alert-engine state: append-only log, active-alert index keyed
by (patient_id, alert_type), spike history per patient, and the next
alert id (spec §3, §4.5). -/
structure EngineState : Type where
  log : List Alert
  index : List ((String × AlertType) × Alert)
  spikeHist : List (String × List ℚ)
  nextId : ℕ
deriving DecidableEq

/-- The empty engine state. -/
def initialState : EngineState := ⟨[], [], [], 0⟩

/-- Modelled from the spec: §7 error taxonomy — the two core result
errors the claims exercise. -/
inductive EngineError : Type
  | validationError
  | notFound
deriving DecidableEq

/-- Modelled from the spec: §3 invariants — a RiskSample is valid when
risk_score ∈ [0,100] and confidence ∈ [0,1]; violating inputs are
rejected, not clamped. -/
def validSample (s : RiskSample) : Bool :=
  decide (0 ≤ s.riskScore) && decide (s.riskScore ≤ 100) &&
  decide (0 ≤ s.confidence) && decide (s.confidence ≤ 1)

/-- Create the persisted Alert from a candidate plus suppression
decision and patient meta data (spec §3). -/
def mkAlert (n : ℕ) (c : AlertCandidate) (sup : Bool) (reason : Option String)
    (name bed : String) : Alert :=
  ⟨n, c.patientId, c.alertType, c.message, c.riskScore, c.confidence,
    c.timestamp, sup, reason, name, bed⟩

/-- Modelled from the spec: §4.4 Alert Suppression Policy, absent from
src/.  With an active alert for the same key, a candidate inside the
cooldown window is logged suppressed with reason
"duplicate within cooldown" and the index is untouched; otherwise the
candidate is accepted, appended unsuppressed and the index entry
replaced. -/
def applyCandidate (cfg : Config) (name bed : String) (st : EngineState)
    (c : AlertCandidate) : Alert × EngineState :=
  match getAssoc st.index (c.patientId, c.alertType) with
  | some act =>
    if c.timestamp - act.timestamp < cfg.cooldownMs then
      let a := mkAlert st.nextId c true (some "duplicate within cooldown") name bed
      (a, { st with log := st.log ++ [a], nextId := st.nextId + 1 })
    else
      let a := mkAlert st.nextId c false none name bed
      (a, { st with
              log := st.log ++ [a]
              index := setAssoc st.index (c.patientId, c.alertType) a
              nextId := st.nextId + 1 })
  | none =>
    let a := mkAlert st.nextId c false none name bed
    (a, { st with
            log := st.log ++ [a]
            index := setAssoc st.index (c.patientId, c.alertType) a
            nextId := st.nextId + 1 })

/-- Modelled from the spec: §4.4 tie-break — within one tick the first
candidate per (patient_id, alert_type) survives; later ones are logged
suppressed with reason "duplicate in same tick". -/
def tickLoop (cfg : Config) (name bed : String) (st : EngineState)
    (seen : List (String × AlertType)) :
    List AlertCandidate → List Alert × EngineState
  | [] => ([], st)
  | c :: rest =>
    if (c.patientId, c.alertType) ∈ seen then
      let a := mkAlert st.nextId c true (some "duplicate in same tick") name bed
      let st' := { st with log := st.log ++ [a], nextId := st.nextId + 1 }
      let p := tickLoop cfg name bed st' seen rest
      (a :: p.1, p.2)
    else
      let q := applyCandidate cfg name bed st c
      let p := tickLoop cfg name bed q.2 ((c.patientId, c.alertType) :: seen) rest
      (q.1 :: p.1, p.2)

/-- Modelled from the spec: §4.6 Alert Engine orchestrator, absent
from src/.  One evaluation tick for one patient: validation, threshold
evaluator and spike detector, confidence filter, suppression policy,
log appends; a malformed sample aborts the tick with a
ValidationError and writes nothing. -/
def tick (cfg : Config) (pid name bed : String) (v : VitalReading)
    (s : RiskSample) (st : EngineState) :
    Except EngineError (List Alert) × EngineState :=
  if validSample s then
    let tc := thresholdEvaluator cfg.thresholds pid s v
    let sp := spikeDetector cfg st.spikeHist pid s
    let surviving := (tc ++ sp.1).filter (fun c => decide (cfg.minConfidence ≤ c.confidence))
    let p := tickLoop cfg name bed { st with spikeHist := sp.2 } [] surviving
    (.ok p.1, p.2)
  else
    (.error .validationError, st)

/-- Modelled from the spec: §4.4 explicit clinician suppression and §7
NotFound/AlreadySuppressed, absent from src/ (the frontend only calls
`suppressAlert` in `src/frontend/src/api/client.js`).  Unknown id is a
NotFound error; an already-suppressed record is a successful no-op
returning the existing record; otherwise the one allowed mutation sets
the suppression fields and removes the record from the active index if
it is the current active entry. -/
def suppress (st : EngineState) (i : ℕ) (reason : String) :
    Except EngineError Alert × EngineState :=
  match st.log.find? (fun a => a.id == i) with
  | none => (.error .notFound, st)
  | some a =>
    if a.suppressed then
      (.ok a, st)
    else
      let a' := { a with suppressed := true, suppressedReason := some reason }
      let log' := st.log.map (fun x =>
        if x.id = i then { x with suppressed := true, suppressedReason := some reason } else x)
      let index' :=
        match getAssoc st.index (a.patientId, a.alertType) with
        | some b => if b.id = i then removeAssoc st.index (a.patientId, a.alertType) else st.index
        | none => st.index
      (.ok a', { st with log := log', index := index' })

/-- Modelled from the spec: §4.5 `list_active()` — derived from the
active index, filtered to non-suppressed. -/
def listActive (st : EngineState) : List Alert :=
  (st.index.map (fun e => e.2)).filter (fun a => !a.suppressed)

/-- Modelled from the spec: §8 round-trip — rebuild the active index
by replaying the alert log in insertion order: every non-suppressed
record becomes the entry for its (patient_id, alert_type) key. -/
def replayIndex (log : List Alert) : List ((String × AlertType) × Alert) :=
  log.foldl
    (fun idx a =>
      if a.suppressed then idx else setAssoc idx (a.patientId, a.alertType) a) []

/-- An externally visible operation on the engine: an evaluation tick
or a clinician suppression (spec §4.4, §4.6). -/
inductive Op : Type
  | tick (pid name bed : String) (v : VitalReading) (s : RiskSample)
  | suppress (i : ℕ) (reason : String)

/-- Apply one operation to the engine state, keeping only the state. -/
def applyOp (cfg : Config) (st : EngineState) : Op → EngineState
  | .tick pid name bed v s => (tick cfg pid name bed v s st).2
  | .suppress i reason => (suppress st i reason).2

/-- Run a sequence of operations from a starting state. -/
def runOps (cfg : Config) (st : EngineState) (ops : List Op) : EngineState :=
  ops.foldl (applyOp cfg) st

/-- The colour triple returned by `getBedColor` in
`src/unnamed/part_000/riskColors` (background, border, text). -/
structure BedColor : Type where
  bg : String
  border : String
  text : String
deriving DecidableEq

/-- Translated from `getBedColor` (riskColors utility): score ≥ 70 is
the red style, score ≥ 40 the yellow style, anything else green. -/
def getBedColor (score : ℚ) : BedColor :=
  if 70 ≤ score then ⟨"rgba(239,68,68,0.2)", "rgba(239,68,68,0.5)", "#ef4444"⟩
  else if 40 ≤ score then ⟨"rgba(245,158,11,0.2)", "rgba(245,158,11,0.5)", "#f59e0b"⟩
  else ⟨"rgba(34,197,94,0.15)", "rgba(34,197,94,0.4)", "#22c55e"⟩

/-- Translated from `getRiskHex` (riskColors utility): hex colour per
risk-level string, with a slate default. -/
def getRiskHex (level : String) : String :=
  if level = "red" then "#ef4444"
  else if level = "yellow" then "#f59e0b"
  else if level = "green" then "#22c55e"
  else "#64748b"

/-- Modelled from the spec: §3 — risk_level is derived from the score:
green [0,40), yellow [40,70), red [70,100].  The derivation itself
lives in the backend, absent from src/; the in-src witnesses are
`getBedColor` and the dashboard legend. -/
def riskLevelOfScore (score : ℚ) : String :=
  if 70 ≤ score then "red"
  else if 40 ≤ score then "yellow"
  else "green"

/-- A patient object as seen by the `useAlarm` hook in
`src/unnamed/part_001`: the risk score may live in `risk_score` or
`riskScore`, either may be absent. -/
structure AlarmPatient : Type where
  risk_score : Option ℚ
  riskScore : Option ℚ
  name : Option String
  pid : String
deriving DecidableEq

/-- Translated from `useAlarm`: `p.risk_score ?? p.riskScore ?? 0`. -/
def patientScore (p : AlarmPatient) : ℚ :=
  p.risk_score.getD (p.riskScore.getD 0)

/-- Translated from `useAlarm` (src/unnamed/part_001): one run of the
effect body.  State is the `lastAlarmRef` value; `now` is
`Date.now()` in milliseconds.  Returns whether the alarm fired and the
new ref value; `CRITICAL_THRESHOLD = 98`, `COOLDOWN_MS = 9000`. -/
def alarmStep (lastAlarm : ℤ) (patients : List AlarmPatient) (now : ℤ) :
    Bool × ℤ :=
  if patients.isEmpty then (false, lastAlarm)
  else if now - lastAlarm < 9000 then (false, lastAlarm)
  else
    match patients.find? (fun p => decide (98 ≤ patientScore p)) with
    | none => (false, lastAlarm)
    | some _ => (true, now)

/-- Run `useAlarm` over a sequence of effect invocations, each with
the patients array and the current time; collect the fire times. -/
def alarmRun (lastAlarm : ℤ) : List (List AlarmPatient × ℤ) → List ℤ
  | [] => []
  | (ps, t) :: rest =>
    let r := alarmStep lastAlarm ps t
    if r.1 then t :: alarmRun r.2 rest else alarmRun r.2 rest

/-! ## Association-list lemmas -/

theorem getAssoc_setAssoc_self {α β : Type} [DecidableEq α]
    (l : List (α × β)) (k : α) (v : β) : getAssoc (setAssoc l k v) k = some v := by
  induction l with
  | nil => simp [setAssoc, getAssoc]
  | cons e rest ih =>
    by_cases h : e.1 = k
    · simp [setAssoc, h, getAssoc]
    · simp [setAssoc, h, getAssoc, ih]

theorem mem_setAssoc {α β : Type} [DecidableEq α]
    {l : List (α × β)} {k : α} {v : β} {e : α × β}
    (h : e ∈ setAssoc l k v) : e = (k, v) ∨ e ∈ l := by
  induction l with
  | nil => simpa [setAssoc] using h
  | cons f rest ih =>
    by_cases hf : f.1 = k
    · rcases (by simpa [setAssoc, hf] using h : e = (k, v) ∨ e ∈ rest) with h' | h'
      · exact Or.inl h'
      · exact Or.inr (List.mem_cons_of_mem _ h')
    · rcases (by simpa [setAssoc, hf] using h : e = f ∨ e ∈ setAssoc rest k v) with h' | h'
      · exact Or.inr (h' ▸ List.mem_cons_self _ _)
      · rcases ih h' with h'' | h''
        · exact Or.inl h''
        · exact Or.inr (List.mem_cons_of_mem _ h'')

theorem fst_mem_setAssoc {α β : Type} [DecidableEq α]
    {l : List (α × β)} {k : α} {v : β} {a : α}
    (h : a ∈ (setAssoc l k v).map Prod.fst) : a = k ∨ a ∈ l.map Prod.fst := by
  rcases List.mem_map.1 h with ⟨e, he, rfl⟩
  rcases mem_setAssoc he with h' | h'
  · left; rw [h']
  · right; exact List.mem_map_of_mem _ h'

theorem nodup_keys_setAssoc {α β : Type} [DecidableEq α]
    {l : List (α × β)} (k : α) (v : β)
    (h : (l.map Prod.fst).Nodup) : ((setAssoc l k v).map Prod.fst).Nodup := by
  induction l with
  | nil => simp [setAssoc]
  | cons f rest ih =>
    rw [List.map_cons, List.nodup_cons] at h
    by_cases hf : f.1 = k
    · have hs : setAssoc (f :: rest) k v = (k, v) :: rest := by
        cases f; simp_all [setAssoc]
      rw [hs, List.map_cons, List.nodup_cons]
      exact ⟨hf ▸ h.1, h.2⟩
    · have hs : setAssoc (f :: rest) k v = f :: setAssoc rest k v := by
        cases f; simp_all [setAssoc]
      rw [hs, List.map_cons]
      refine List.nodup_cons.2 ⟨fun hmem => ?_, ih h.2⟩
      rcases fst_mem_setAssoc hmem with h' | h'
      · exact hf h'
      · exact h.1 h'

theorem mem_removeAssoc {α β : Type} [DecidableEq α]
    {l : List (α × β)} {k : α} {e : α × β} :
    e ∈ removeAssoc l k ↔ e ∈ l ∧ e.1 ≠ k := by
  simp [removeAssoc, List.mem_filter]

theorem getAssoc_eq_none {α β : Type} [DecidableEq α]
    {l : List (α × β)} {k : α} (h : ∀ e ∈ l, e.1 ≠ k) : getAssoc l k = none := by
  induction l with
  | nil => rfl
  | cons f rest ih =>
    have hf : f.1 ≠ k := h f (List.mem_cons_self _ _)
    simp only [getAssoc, if_neg hf]
    exact ih fun e he => h e (List.mem_cons_of_mem _ he)

theorem getAssoc_removeAssoc_self {α β : Type} [DecidableEq α]
    (l : List (α × β)) (k : α) : getAssoc (removeAssoc l k) k = none :=
  getAssoc_eq_none fun _ he => (mem_removeAssoc.1 he).2

theorem nodup_keys_removeAssoc {α β : Type} [DecidableEq α]
    {l : List (α × β)} (k : α)
    (h : (l.map Prod.fst).Nodup) : ((removeAssoc l k).map Prod.fst).Nodup :=
  ((List.filter_sublist l).map Prod.fst).nodup h

/-! ## The active-index invariant -/

/-- The core state invariant of spec §3: index keys are pairwise
distinct (at most one active alert per (patient_id, alert_type)) and
every indexed alert is unsuppressed. -/
def IndexInv (st : EngineState) : Prop :=
  (st.index.map Prod.fst).Nodup ∧ ∀ e ∈ st.index, e.2.suppressed = false

theorem indexInv_applyCandidate (cfg : Config) (name bed : String)
    (st : EngineState) (c : AlertCandidate) (h : IndexInv st) :
    IndexInv (applyCandidate cfg name bed st c).2 := by
  unfold applyCandidate
  cases hidx : getAssoc st.index (c.patientId, c.alertType) with
  | none =>
    refine ⟨nodup_keys_setAssoc _ _ h.1, fun e he => ?_⟩
    rcases mem_setAssoc he with h' | h'
    · rw [h']; rfl
    · exact h.2 e h'
  | some act =>
    by_cases hc : c.timestamp - act.timestamp < cfg.cooldownMs
    · simpa [hc] using h
    · simp only [hc, if_false]
      refine ⟨nodup_keys_setAssoc _ _ h.1, fun e he => ?_⟩
      rcases mem_setAssoc he with h' | h'
      · rw [h']; rfl
      · exact h.2 e h'

theorem indexInv_tickLoop (cfg : Config) (name bed : String)
    (cs : List AlertCandidate) :
    ∀ st seen, IndexInv st → IndexInv (tickLoop cfg name bed st seen cs).2 := by
  induction cs with
  | nil => intro st seen h; simpa [tickLoop] using h
  | cons c rest ih =>
    intro st seen h
    unfold tickLoop
    by_cases hseen : (c.patientId, c.alertType) ∈ seen
    · simp only [hseen, if_true]
      exact ih _ _ h
    · simp only [hseen, if_false]
      exact ih _ _ (indexInv_applyCandidate cfg name bed st c h)

theorem indexInv_tick (cfg : Config) (pid name bed : String)
    (v : VitalReading) (s : RiskSample) (st : EngineState) (h : IndexInv st) :
    IndexInv (tick cfg pid name bed v s st).2 := by
  unfold tick
  by_cases hv : validSample s
  · simp only [hv, if_true]
    exact indexInv_tickLoop cfg name bed _ _ [] h
  · simpa [hv] using h

theorem indexInv_suppress (st : EngineState) (i : ℕ) (reason : String)
    (h : IndexInv st) : IndexInv (suppress st i reason).2 := by
  unfold suppress
  cases hfind : st.log.find? (fun a => a.id == i) with
  | none => exact h
  | some a =>
    by_cases hsup : a.suppressed
    · simpa [hsup] using h
    · simp only [hsup, if_false]
      cases hidx : getAssoc st.index (a.patientId, a.alertType) with
      | none => exact h
      | some b =>
        by_cases hb : b.id = i
        · simp only [hb, if_true]
          exact ⟨nodup_keys_removeAssoc _ h.1,
            fun e he => h.2 e (mem_removeAssoc.1 he).1⟩
        · simpa [hb] using h

theorem indexInv_applyOp (cfg : Config) (st : EngineState) (op : Op)
    (h : IndexInv st) : IndexInv (applyOp cfg st op) := by
  cases op with
  | tick pid name bed v s => exact indexInv_tick cfg pid name bed v s st h
  | suppress i reason => exact indexInv_suppress st i reason h

theorem indexInv_runOps (cfg : Config) (ops : List Op) :
    ∀ st, IndexInv st → IndexInv (runOps cfg st ops) := by
  induction ops with
  | nil => intro st h; exact h
  | cons op rest ih =>
    intro st h
    exact ih _ (indexInv_applyOp cfg st op h)

theorem indexInv_initial : IndexInv initialState := by
  constructor
  · simp [initialState]
  · intro e he; simp [initialState] at he

/-! ## Log growth under evaluation ticks -/

theorem log_applyCandidate (cfg : Config) (name bed : String)
    (st : EngineState) (c : AlertCandidate) :
    ∃ tail, (applyCandidate cfg name bed st c).2.log = st.log ++ tail := by
  unfold applyCandidate
  cases getAssoc st.index (c.patientId, c.alertType) with
  | none => exact ⟨_, rfl⟩
  | some act =>
    by_cases hc : c.timestamp - act.timestamp < cfg.cooldownMs
    · simp only [hc, if_true]; exact ⟨_, rfl⟩
    · simp only [hc, if_false]; exact ⟨_, rfl⟩

theorem log_tickLoop (cfg : Config) (name bed : String)
    (cs : List AlertCandidate) :
    ∀ st seen, ∃ tail, (tickLoop cfg name bed st seen cs).2.log = st.log ++ tail := by
  induction cs with
  | nil => intro st seen; exact ⟨[], by simp [tickLoop]⟩
  | cons c rest ih =>
    intro st seen
    unfold tickLoop
    by_cases hseen : (c.patientId, c.alertType) ∈ seen
    · simp only [hseen, if_true]
      rcases ih { st with log := st.log ++ [mkAlert st.nextId c true
          (some "duplicate in same tick") name bed], nextId := st.nextId + 1 } seen
        with ⟨tail, htail⟩
      exact ⟨mkAlert st.nextId c true (some "duplicate in same tick") name bed :: tail,
        by rw [htail]; simp⟩
    · simp only [hseen, if_false]
      rcases log_applyCandidate cfg name bed st c with ⟨t1, h1⟩
      rcases ih (applyCandidate cfg name bed st c).2
        ((c.patientId, c.alertType) :: seen) with ⟨t2, h2⟩
      exact ⟨t1 ++ t2, by rw [h2, h1]; simp⟩

theorem log_tick (cfg : Config) (pid name bed : String)
    (v : VitalReading) (s : RiskSample) (st : EngineState) :
    ∃ tail, (tick cfg pid name bed v s st).2.log = st.log ++ tail := by
  unfold tick
  by_cases hv : validSample s
  · simp only [hv, if_true]
    exact log_tickLoop cfg name bed _ _ []
  · exact ⟨[], by simp [hv]⟩

/-! ## Concrete example inputs used by witnesses -/

/-- Default configuration, matching the AdminPage defaults. -/
def cfgD : Config := {}

/-- A reading with heart rate 145 (above the 130 default bound) and
all other vitals in range. -/
def v145 : VitalReading := ⟨145, 95, 120, 80, 15, 37, 0⟩

/-- A valid sample with risk score 50 and confidence 0.9 at time t. -/
def sampAt (t : ℕ) : RiskSample := ⟨50, mkRat 9 10, t⟩

/-- First tick: HR 145 at time 0 — one accepted threshold alert. -/
def op1 : Op := .tick "P1" "Arjun" "B01" v145 (sampAt 0)

/-- Second tick, same breach at time 60000 (cooldown elapsed). -/
def op2 : Op := .tick "P1" "Arjun" "B01" { v145 with timestamp := 60000 } (sampAt 60000)

/-- Clinician suppression of the replacement alert (id 1). -/
def op3 : Op := .suppress 1 "clinician reviewed"

/-- The engine state after the single tick `op1`. -/
def exSt1 : EngineState := runOps cfgD initialState [op1]

/-- A default alert value for total list access in witnesses. -/
def defaultAlert : Alert := mkAlert 0 ⟨"", .threshold, "", 0, 0, 0⟩ true none "" ""

/-- The unique index entry of `exSt1`. -/
def exEntry : (String × AlertType) × Alert :=
  exSt1.index.getD 0 (("", .threshold), defaultAlert)

/-- C1: For every (patient_id, alert_type) pair, after any sequence of
evaluation ticks and suppress operations, at most one Alert is active
at any instant (the index keys are pairwise distinct and every indexed
alert is unsuppressed), every Alert in the active view has
suppressed = false, and a further evaluation tick only appends to the
log, leaving every previous Alert record unmodified. -/
theorem active_alerts_unique_and_unsuppressed (cfg : Config) (ops : List Op) :
    (((runOps cfg initialState ops).index.map Prod.fst).Nodup ∧
      ∀ e ∈ (runOps cfg initialState ops).index, e.2.suppressed = false) ∧
    (∀ a ∈ listActive (runOps cfg initialState ops), a.suppressed = false) ∧
    (∀ pid name bed v s, ∃ tail,
      (applyOp cfg (runOps cfg initialState ops) (.tick pid name bed v s)).log =
        (runOps cfg initialState ops).log ++ tail) := by
  refine ⟨indexInv_runOps cfg ops initialState indexInv_initial,
    fun a ha => ?_, fun pid name bed v s => log_tick cfg pid name bed v s _⟩
  have := (List.mem_filter.1 ha).2
  simpa using this

/-- Concrete check of C1: the alert indexed after the first example
tick is unsuppressed. -/
theorem active_alerts_unique_and_unsuppressed_witness :
    exEntry.2.suppressed = false :=
  (active_alerts_unique_and_unsuppressed cfgD [op1]).1.2 exEntry
    (by with_unfolding_all decide)

/-- A bare threshold candidate for patient P1 at time t. -/
def candAt (t : ℕ) : AlertCandidate := ⟨"P1", .threshold, "msg", 50, mkRat 9 10, t⟩

/-- C2: For every (patient_id, alert_type) with a currently active
Alert, a candidate arriving before the cooldown window since the
active alert's creation has elapsed is appended to the log suppressed
with reason "duplicate within cooldown" and leaves the index entry
unchanged; a candidate arriving after the cooldown has elapsed is
appended unsuppressed and becomes the new active alert. -/
theorem cooldown_policy (cfg : Config) (name bed : String) (st : EngineState)
    (c : AlertCandidate) (act : Alert)
    (hact : getAssoc st.index (c.patientId, c.alertType) = some act) :
    (c.timestamp - act.timestamp < cfg.cooldownMs →
      (applyCandidate cfg name bed st c).1.suppressed = true ∧
      (applyCandidate cfg name bed st c).1.suppressedReason =
        some "duplicate within cooldown" ∧
      (applyCandidate cfg name bed st c).2.log =
        st.log ++ [(applyCandidate cfg name bed st c).1] ∧
      (applyCandidate cfg name bed st c).2.index = st.index) ∧
    (cfg.cooldownMs ≤ c.timestamp - act.timestamp →
      (applyCandidate cfg name bed st c).1.suppressed = false ∧
      (applyCandidate cfg name bed st c).2.log =
        st.log ++ [(applyCandidate cfg name bed st c).1] ∧
      getAssoc (applyCandidate cfg name bed st c).2.index
        (c.patientId, c.alertType) = some (applyCandidate cfg name bed st c).1) := by
  constructor
  · intro hcd
    simp [applyCandidate, hact, hcd, mkAlert]
  · intro hcd
    have h' : ¬ c.timestamp - act.timestamp < cfg.cooldownMs := not_lt.2 hcd
    simp [applyCandidate, hact, h', mkAlert, getAssoc_setAssoc_self]

/-- Concrete check of C2: at the default 60000 ms cooldown, a repeat
candidate at t = 1000 is annotated "duplicate within cooldown" while a
repeat candidate at t = 60000 is accepted unsuppressed. -/
theorem cooldown_policy_witness :
    (applyCandidate cfgD "Arjun" "B01" exSt1 (candAt 1000)).1.suppressedReason =
      some "duplicate within cooldown" ∧
    (applyCandidate cfgD "Arjun" "B01" exSt1 (candAt 60000)).1.suppressed = false :=
  ⟨((cooldown_policy cfgD "Arjun" "B01" exSt1 (candAt 1000) exEntry.2
      (by with_unfolding_all decide)).1 (by decide)).2.1,
   ((cooldown_policy cfgD "Arjun" "B01" exSt1 (candAt 60000) exEntry.2
      (by with_unfolding_all decide)).2 (by decide)).1⟩

/-- Every threshold candidate carries the sample's confidence. -/
theorem confidence_thresholdEvaluator {t : Thresholds} {pid : String}
    {s : RiskSample} {v : VitalReading} :
    ∀ c ∈ thresholdEvaluator t pid s v, c.confidence = s.confidence := by
  intro c hmem
  simp only [thresholdEvaluator, List.mem_append] at hmem
  rcases hmem with ((((h | h) | h) | h) | h) | h <;>
    (split at h <;> simp_all)

/-- Every spike candidate carries the sample's confidence. -/
theorem confidence_spikeDetector {cfg : Config} {h : List (String × List ℚ)}
    {pid : String} {s : RiskSample} :
    ∀ c ∈ (spikeDetector cfg h pid s).1, c.confidence = s.confidence := by
  intro c hmem
  rcases hh : histFor h pid with _ | ⟨prev, rest⟩
  · simp [spikeDetector, hh] at hmem
  · simp only [spikeDetector, hh] at hmem
    split at hmem <;> simp_all

/-- C3: For every AlertCandidate whose confidence is strictly below
min_confidence (default 0.75), an evaluation tick creates no Alert
record from it: with the whole tick below the floor, the output is
empty and the alert log and index are unchanged — the candidate never
reaches the suppression policy and is never logged, not even as
suppressed. -/
theorem confidence_filter_drops (cfg : Config) (pid name bed : String)
    (v : VitalReading) (s : RiskSample) (st : EngineState)
    (hv : validSample s = true) (hc : s.confidence < cfg.minConfidence) :
    (tick cfg pid name bed v s st).1 = .ok [] ∧
    (tick cfg pid name bed v s st).2.log = st.log ∧
    (tick cfg pid name bed v s st).2.index = st.index := by
  have hfil : (thresholdEvaluator cfg.thresholds pid s v ++
      (spikeDetector cfg st.spikeHist pid s).1).filter
        (fun c => decide (cfg.minConfidence ≤ c.confidence)) = [] := by
    rw [List.filter_eq_nil_iff]
    intro c hmem
    have hconf : c.confidence = s.confidence := by
      rcases List.mem_append.1 hmem with h | h
      · exact confidence_thresholdEvaluator c h
      · exact confidence_spikeDetector c h
    simp [hconf, not_le.2 hc]
  simp [tick, hv, hfil, tickLoop]

/-- A low-confidence sample: risk 50, confidence 0.5, time 0. -/
def sLow : RiskSample := ⟨50, mkRat 1 2, 0⟩

/-- Concrete check of C3: a tick on HR 145 with confidence 0.5 < 0.75
produces no alert and leaves the log untouched. -/
theorem confidence_filter_drops_witness :
    (tick cfgD "P1" "Arjun" "B01" v145 sLow initialState).1 = .ok [] ∧
    (tick cfgD "P1" "Arjun" "B01" v145 sLow initialState).2.log = initialState.log ∧
    (tick cfgD "P1" "Arjun" "B01" v145 sLow initialState).2.index = initialState.index :=
  confidence_filter_drops cfgD "P1" "Arjun" "B01" v145 sLow initialState
    (by decide) (by decide)

/-- C4: For every patient, the Spike Detector emits exactly one spike
candidate when the delta between the new and the previous risk score
is at least spike_threshold, none when the delta is below it, and the
very first RiskSample for a patient (no prior history) never produces
a spike candidate. -/
theorem spike_detector_rule (cfg : Config) (h : List (String × List ℚ))
    (pid : String) (s : RiskSample) :
    (histFor h pid = [] → (spikeDetector cfg h pid s).1 = []) ∧
    (∀ prev rest, histFor h pid = prev :: rest →
      (cfg.spikeThreshold ≤ s.riskScore - prev →
        (spikeDetector cfg h pid s).1.length = 1 ∧
        ∀ c ∈ (spikeDetector cfg h pid s).1,
          c.alertType = .spike ∧ c.patientId = pid) ∧
      (s.riskScore - prev < cfg.spikeThreshold →
        (spikeDetector cfg h pid s).1 = [])) := by
  refine ⟨fun hh => by simp [spikeDetector, hh],
    fun prev rest hh => ⟨fun hd => ?_, fun hd => ?_⟩⟩
  · constructor
    · simp [spikeDetector, hh, hd]
    · intro c hc
      simp only [spikeDetector, hh, if_pos hd, List.mem_singleton] at hc
      subst hc
      exact ⟨rfl, rfl⟩
  · simp [spikeDetector, hh, not_le.2 hd]

/-- A sample jumping to risk 55 with good confidence. -/
def s55 : RiskSample := ⟨55, mkRat 9 10, 1⟩

/-- Spike history holding a single previous score 30 for P1. -/
def h30 : List (String × List ℚ) := [("P1", [30])]

/-- Concrete check of C4: no history gives no spike candidate; a
30 → 55 jump (delta 25 ≥ 20) gives exactly one. -/
theorem spike_detector_rule_witness :
    (spikeDetector cfgD [] "P1" s55).1 = [] ∧
    (spikeDetector cfgD h30 "P1" s55).1.length = 1 :=
  ⟨(spike_detector_rule cfgD [] "P1" s55).1 rfl,
   (((spike_detector_rule cfgD h30 "P1" s55).2 30 [] (by decide)).1
     (by norm_num [cfgD, s55])).1⟩

/-- Whether an alert message mentions the Heart Rate metric: the
evaluator's messages open with the metric name. -/
def mentionsHeartRate (m : String) : Bool :=
  "Heart Rate".data.isPrefixOf m.data

theorem isPrefixOf_append_self (l r : List Char) :
    l.isPrefixOf (l ++ r) = true := by
  induction l with
  | nil => simp [List.isPrefixOf]
  | cons a as ih => simp [List.isPrefixOf, ih]

theorem mentionsHeartRate_append (r : String) :
    mentionsHeartRate ("Heart Rate" ++ r) = true := by
  unfold mentionsHeartRate
  rw [String.data_append]
  exact isPrefixOf_append_self _ _

theorem not_mentions_of_head (c : Char) (l : List Char) (hc : ('H' == c) = false) :
    "Heart Rate".data.isPrefixOf (c :: l) = false := by
  rw [show "Heart Rate".data = 'H' :: "eart Rate".data from rfl]
  simp [List.isPrefixOf, hc]

theorem mentions_spo2 (r : String) : mentionsHeartRate ("SpO2" ++ r) = false := by
  unfold mentionsHeartRate
  rw [String.data_append, show "SpO2".data ++ r.data = 'S' :: ("pO2".data ++ r.data) from rfl]
  exact not_mentions_of_head 'S' _ rfl

theorem mentions_rr (r : String) :
    mentionsHeartRate ("Respiration Rate" ++ r) = false := by
  unfold mentionsHeartRate
  rw [String.data_append,
    show "Respiration Rate".data ++ r.data =
      'R' :: ("espiration Rate".data ++ r.data) from rfl]
  exact not_mentions_of_head 'R' _ rfl

theorem mentions_temp (r : String) :
    mentionsHeartRate ("Temperature" ++ r) = false := by
  unfold mentionsHeartRate
  rw [String.data_append,
    show "Temperature".data ++ r.data = 'T' :: ("emperature".data ++ r.data) from rfl]
  exact not_mentions_of_head 'T' _ rfl

theorem mentions_sbp (r : String) :
    mentionsHeartRate ("Systolic BP" ++ r) = false := by
  unfold mentionsHeartRate
  rw [String.data_append,
    show "Systolic BP".data ++ r.data = 'S' :: ("ystolic BP".data ++ r.data) from rfl]
  exact not_mentions_of_head 'S' _ rfl

/-- C5: For every VitalReading whose heart rate exceeds the configured
high bound, the Threshold Evaluator — a pure function of the reading
and the threshold configuration — emits only `threshold` candidates
and exactly one candidate whose message mentions "Heart Rate",
provided the configuration is valid (hr_low < hr_high, spec §7). -/
theorem threshold_hr_high (t : Thresholds) (pid : String) (s : RiskSample)
    (v : VitalReading) :
    (∀ c ∈ thresholdEvaluator t pid s v, c.alertType = .threshold) ∧
    (t.hrLow < t.hrHigh → t.hrHigh < v.hr →
      (thresholdEvaluator t pid s v).countP
        (fun c => mentionsHeartRate c.message) = 1) := by
  constructor
  · intro c hmem
    simp only [thresholdEvaluator, List.mem_append] at hmem
    rcases hmem with ((((h | h) | h) | h) | h) | h <;> (split at h <;> simp_all)
  · intro hlo hhr
    have hnl : ¬ v.hr < t.hrLow := not_lt.2 (le_of_lt (lt_trans hlo hhr))
    simp only [thresholdEvaluator, List.countP_append, if_pos hhr, if_neg hnl]
    split_ifs <;>
      simp [List.countP_cons, mentionsHeartRate_append, mentions_spo2,
        mentions_rr, mentions_temp, mentions_sbp]

/-- Concrete check of C5: at the default bounds, HR 145 yields exactly
one candidate mentioning Heart Rate. -/
theorem threshold_hr_high_witness :
    (thresholdEvaluator {} "P1" (sampAt 0) v145).countP
      (fun c => mentionsHeartRate c.message) = 1 :=
  (threshold_hr_high {} "P1" (sampAt 0) v145).2 (by norm_num) (by norm_num [v145])

/-- C6 counterexample: replaying the log does not always reconstruct
the incremental index.  After an accepted alert (`op1`), its
post-cooldown replacement (`op2`) and clinician suppression of the
replacement (`op3`), the incremental index is empty while replay
resurrects the superseded — still unsuppressed — first alert. -/
theorem replay_mismatch :
    replayIndex (runOps cfgD initialState [op1, op2, op3]).log ≠
      (runOps cfgD initialState [op1, op2, op3]).index := by
  with_unfolding_all decide

theorem replay_step (l : List Alert) (a : Alert) :
    replayIndex (l ++ [a]) =
      if a.suppressed then replayIndex l
      else setAssoc (replayIndex l) (a.patientId, a.alertType) a := by
  simp [replayIndex, List.foldl_append]

theorem replayInv_applyCandidate (cfg : Config) (name bed : String)
    (st : EngineState) (c : AlertCandidate)
    (h : st.index = replayIndex st.log) :
    (applyCandidate cfg name bed st c).2.index =
      replayIndex (applyCandidate cfg name bed st c).2.log := by
  unfold applyCandidate
  cases hidx : getAssoc st.index (c.patientId, c.alertType) with
  | none => simp [replay_step, mkAlert, h]
  | some act =>
    by_cases hcd : c.timestamp - act.timestamp < cfg.cooldownMs
    · simp [hcd, replay_step, mkAlert, h]
    · simp [hcd, replay_step, mkAlert, h]

theorem replayInv_tickLoop (cfg : Config) (name bed : String)
    (cs : List AlertCandidate) :
    ∀ st seen, st.index = replayIndex st.log →
      (tickLoop cfg name bed st seen cs).2.index =
        replayIndex (tickLoop cfg name bed st seen cs).2.log := by
  induction cs with
  | nil => intro st seen h; simpa [tickLoop] using h
  | cons c rest ih =>
    intro st seen h
    unfold tickLoop
    by_cases hseen : (c.patientId, c.alertType) ∈ seen
    · simp only [hseen, if_true]
      refine ih _ _ ?_
      simp [replay_step, mkAlert, h]
    · simp only [hseen, if_false]
      exact ih _ _ (replayInv_applyCandidate cfg name bed st c h)

theorem replayInv_tick (cfg : Config) (pid name bed : String)
    (v : VitalReading) (s : RiskSample) (st : EngineState)
    (h : st.index = replayIndex st.log) :
    (tick cfg pid name bed v s st).2.index =
      replayIndex (tick cfg pid name bed v s st).2.log := by
  unfold tick
  by_cases hv : validSample s
  · simp only [hv, if_true]
    exact replayInv_tickLoop cfg name bed _ _ [] h
  · simpa [hv] using h

/-- Whether an operation is an evaluation tick. -/
def isTick : Op → Bool
  | .tick _ _ _ _ _ => true
  | .suppress _ _ => false

theorem replayInv_runOps (cfg : Config) (ops : List Op) :
    ∀ st, (∀ op ∈ ops, isTick op = true) → st.index = replayIndex st.log →
      (runOps cfg st ops).index = replayIndex (runOps cfg st ops).log := by
  induction ops with
  | nil => intro st _ h; exact h
  | cons op rest ih =>
    intro st hall h
    have hop : isTick op = true := hall op (List.mem_cons_self _ _)
    cases op with
    | tick pid name bed v s =>
      exact ih _ (fun o ho => hall o (List.mem_cons_of_mem _ ho))
        (replayInv_tick cfg pid name bed v s st h)
    | suppress i r => simp [isTick] at hop

/-- C6 (amended): for histories consisting only of evaluation ticks —
no explicit clinician suppression — replaying the full Alert Log in
insertion order reconstructs exactly the ActiveAlertIndex maintained
incrementally by the engine.  (With clinician suppression the
round-trip fails, see the counterexample.) -/
theorem replay_reconstructs_ticks (cfg : Config) (ops : List Op)
    (h : ∀ op ∈ ops, isTick op = true) :
    replayIndex (runOps cfg initialState ops).log =
      (runOps cfg initialState ops).index :=
  (replayInv_runOps cfg ops initialState h rfl).symm

/-- Concrete check of the amended C6: two ticks, cooldown elapsed —
replay of the two-entry log equals the incremental index. -/
theorem replay_reconstructs_ticks_witness :
    replayIndex (runOps cfgD initialState [op1, op2]).log =
      (runOps cfgD initialState [op1, op2]).index :=
  replay_reconstructs_ticks cfgD [op1, op2] (by decide)

theorem find?_map_suppress (l : List Alert) (i : ℕ) (reason : String) (a : Alert)
    (h : l.find? (fun x : Alert => x.id == i) = some a) :
    (l.map (fun x => if x.id = i then
        { x with suppressed := true, suppressedReason := some reason } else x)).find?
      (fun x : Alert => x.id == i) =
      some { a with suppressed := true, suppressedReason := some reason } := by
  induction l with
  | nil => simp at h
  | cons y ys ih =>
    by_cases hy : y.id = i
    · have hb : (y.id == i) = true := by simpa using hy
      rw [@List.find?_cons_of_pos _ (fun x : Alert => x.id == i) y ys hb] at h
      obtain rfl : y = a := by simpa using h
      rw [List.map_cons, if_pos hy]
      exact @List.find?_cons_of_pos _ (fun x : Alert => x.id == i) _ _ hb
    · have hb : ¬ (y.id == i) = true := by simpa using hy
      rw [@List.find?_cons_of_neg _ (fun x : Alert => x.id == i) y ys hb] at h
      rw [List.map_cons, if_neg hy]
      rw [@List.find?_cons_of_neg _ (fun x : Alert => x.id == i) y _ hb]
      exact ih h

/-- C7: suppress(alert_id, reason) is idempotent.  On a
currently-active Alert it returns the record with suppressed = true
and the reason set, empties the index entry for its
(patient_id, alert_type), removes the id from list_active(); applied
again it is a successful no-op returning the already-suppressed record
and changing no state. -/
theorem suppress_idempotent (st : EngineState) (i : ℕ) (reason r2 : String)
    (a b : Alert)
    (hfind : st.log.find? (fun x : Alert => x.id == i) = some a)
    (hsup : a.suppressed = false)
    (hidx : getAssoc st.index (a.patientId, a.alertType) = some b)
    (hbid : b.id = i)
    (huniq : ∀ e ∈ st.index, e.2.id = i → e.1 = (a.patientId, a.alertType)) :
    (suppress st i reason).1 =
      .ok { a with suppressed := true, suppressedReason := some reason } ∧
    getAssoc (suppress st i reason).2.index (a.patientId, a.alertType) = none ∧
    (∀ x ∈ listActive (suppress st i reason).2, x.id ≠ i) ∧
    suppress (suppress st i reason).2 i r2 =
      (.ok { a with suppressed := true, suppressedReason := some reason },
       (suppress st i reason).2) := by
  have hstep : suppress st i reason =
      (.ok { a with suppressed := true, suppressedReason := some reason },
       { st with
          log := st.log.map (fun x => if x.id = i then
            { x with suppressed := true, suppressedReason := some reason } else x)
          index := removeAssoc st.index (a.patientId, a.alertType) }) := by
    simp [suppress, hfind, hsup, hidx, hbid]
  refine ⟨by rw [hstep], ?_, ?_, ?_⟩
  · rw [hstep]
    exact getAssoc_removeAssoc_self _ _
  · rw [hstep]
    intro x hx hxi
    simp only [listActive, List.mem_filter, List.mem_map] at hx
    obtain ⟨⟨e, he, rfl⟩, _⟩ := hx
    have he' := mem_removeAssoc.1 he
    exact he'.2 (huniq e he'.1 hxi)
  · rw [hstep]
    have hfind' := find?_map_suppress st.log i reason a hfind
    simp [suppress, hfind']

/-- An active alert record and a one-alert engine state for the C7
witness. -/
def aw : Alert := mkAlert 0 (candAt 0) false none "Arjun" "B01"

/-- Engine state holding the single active alert `aw`. -/
def stW : EngineState := ⟨[aw], [(("P1", .threshold), aw)], [], 1⟩

/-- Concrete check of C7: suppressing alert 0 returns the suppressed
record, and a second suppress call is a state-preserving no-op
returning the same record. -/
theorem suppress_idempotent_witness :
    (suppress stW 0 "reviewed").1 =
      .ok { aw with suppressed := true, suppressedReason := some "reviewed" } ∧
    suppress (suppress stW 0 "reviewed").2 0 "again" =
      (.ok { aw with suppressed := true, suppressedReason := some "reviewed" },
       (suppress stW 0 "reviewed").2) :=
  ⟨(suppress_idempotent stW 0 "reviewed" "again" aw aw (by decide) (by decide)
      (by decide) rfl (by decide)).1,
   (suppress_idempotent stW 0 "reviewed" "again" aw aw (by decide) (by decide)
      (by decide) rfl (by decide)).2.2.2⟩

/-- C8: For every evaluation tick given a malformed RiskSample
(out-of-range risk_score or confidence), the tick returns a
ValidationError and writes nothing: the whole engine state — Alert Log
and ActiveAlertIndex, for every patient — is unchanged; the violating
input is rejected, not clamped. -/
theorem tick_rejects_invalid (cfg : Config) (pid name bed : String)
    (v : VitalReading) (s : RiskSample) (st : EngineState)
    (h : validSample s = false) :
    tick cfg pid name bed v s st = (.error .validationError, st) := by
  simp [tick, h]

/-- A malformed sample: risk score 150 is out of [0,100]. -/
def sBad : RiskSample := ⟨150, mkRat 9 10, 0⟩

/-- Concrete check of C8: a tick on a sample with risk score 150
errors out and leaves the state untouched. -/
theorem tick_rejects_invalid_witness :
    tick cfgD "P1" "Arjun" "B01" v145 sBad initialState =
      (.error .validationError, initialState) :=
  tick_rejects_invalid cfgD "P1" "Arjun" "B01" v145 sBad initialState (by decide)

/-- C9: For every risk_score in [0,100], the derived risk_level is
green exactly on [0,40), yellow exactly on [40,70) and red exactly on
[70,100]; score 40 maps to yellow and score 70 to red; the derivation
agrees with the source's `getBedColor` colour buckets through
`getRiskHex`. -/
theorem risk_level_buckets (q : ℚ) (h0 : 0 ≤ q) (h100 : q ≤ 100) :
    (riskLevelOfScore q = "green" ↔ 0 ≤ q ∧ q < 40) ∧
    (riskLevelOfScore q = "yellow" ↔ 40 ≤ q ∧ q < 70) ∧
    (riskLevelOfScore q = "red" ↔ 70 ≤ q ∧ q ≤ 100) ∧
    getRiskHex (riskLevelOfScore q) = (getBedColor q).text ∧
    riskLevelOfScore 40 = "yellow" ∧ riskLevelOfScore 70 = "red" := by
  refine ⟨?_, ?_, ?_, ?_, by decide, by decide⟩ <;>
    · simp only [riskLevelOfScore, getRiskHex, getBedColor]
      split_ifs <;> simp_all <;> linarith

/-- Concrete check of C9: the boundary score 40 is yellow. -/
theorem risk_level_buckets_witness : riskLevelOfScore 40 = "yellow" :=
  (risk_level_buckets 40 (by norm_num) (by norm_num)).2.2.2.2.1

theorem alarmStep_fired (last : ℤ) (ps : List AlarmPatient) (t : ℤ)
    (h : (alarmStep last ps t).1 = true) :
    (∃ p ∈ ps, 98 ≤ patientScore p) ∧ last + 9000 ≤ t := by
  unfold alarmStep at h
  by_cases hemp : ps.isEmpty
  · simp [hemp] at h
  · by_cases hcd : t - last < 9000
    · simp [hemp, hcd] at h
    · simp only [hemp, hcd, if_false] at h
      cases hf : ps.find? (fun p => decide (98 ≤ patientScore p)) with
      | none => rw [hf] at h; simp at h
      | some p =>
        refine ⟨⟨p, List.mem_of_find?_eq_some hf, ?_⟩, by omega⟩
        have := List.find?_some hf
        simpa using this

theorem alarmStep_not_fired_state (last : ℤ) (ps : List AlarmPatient) (t : ℤ)
    (h : (alarmStep last ps t).1 = false) : (alarmStep last ps t).2 = last := by
  unfold alarmStep at h ⊢
  by_cases hemp : ps.isEmpty
  · simp [hemp]
  · by_cases hcd : t - last < 9000
    · simp [hemp, hcd]
    · simp only [hemp, hcd, if_false] at h ⊢
      cases hf : ps.find? (fun p => decide (98 ≤ patientScore p)) with
      | none => simp
      | some p => rw [hf] at h; simp at h

theorem alarmStep_fired_state (last : ℤ) (ps : List AlarmPatient) (t : ℤ)
    (h : (alarmStep last ps t).1 = true) : (alarmStep last ps t).2 = t := by
  unfold alarmStep at h ⊢
  by_cases hemp : ps.isEmpty
  · simp [hemp] at h
  · by_cases hcd : t - last < 9000
    · simp [hemp, hcd] at h
    · simp only [hemp, hcd, if_false] at h ⊢
      cases hf : ps.find? (fun p => decide (98 ≤ patientScore p)) with
      | none => rw [hf] at h; simp at h
      | some p => simp

theorem alarmRun_ge (evs : List (List AlarmPatient × ℤ)) :
    ∀ last, ∀ x ∈ alarmRun last evs, last + 9000 ≤ x := by
  induction evs with
  | nil => intro last x hx; simp [alarmRun] at hx
  | cons ev rest ih =>
    intro last x hx
    unfold alarmRun at hx
    by_cases hf : (alarmStep last ev.1 ev.2).1
    · rw [if_pos hf] at hx
      rcases List.mem_cons.1 hx with rfl | hx'
      · exact (alarmStep_fired last ev.1 ev.2 hf).2
      · have h2 := alarmStep_fired_state last ev.1 ev.2 hf
        have := ih (alarmStep last ev.1 ev.2).2 x hx'
        have h1 := (alarmStep_fired last ev.1 ev.2 hf).2
        omega
    · rw [if_neg hf] at hx
      have h2 := alarmStep_not_fired_state last ev.1 ev.2 (by simpa using hf)
      rw [h2] at hx
      exact ih last x hx

theorem alarmRun_chain (evs : List (List AlarmPatient × ℤ)) :
    ∀ last, List.Chain' (fun a b => a + 9000 ≤ b) (alarmRun last evs) := by
  induction evs with
  | nil => intro last; simp [alarmRun]
  | cons ev rest ih =>
    intro last
    unfold alarmRun
    by_cases hf : (alarmStep last ev.1 ev.2).1
    · rw [if_pos hf]
      refine List.chain'_cons'.2 ⟨fun y hy => ?_, ih _⟩
      have hmem := List.mem_of_mem_head? hy
      have h2 := alarmStep_fired_state last ev.1 ev.2 hf
      have := alarmRun_ge rest (alarmStep last ev.1 ev.2).2 y hmem
      omega
    · rw [if_neg hf]
      exact ih _

/-- C10: In the `useAlarm` hook, an alarm fires only when some
patient's score (risk_score, else riskScore, else 0) is at least 98
and at least 9000 ms have elapsed since the previous alarm; no alarm
fires while every patient's score is below 98; and over any sequence
of effect invocations consecutive alarm times are at least 9000 ms
apart. -/
theorem useAlarm_cooldown (last : ℤ) (ps : List AlarmPatient) (t : ℤ) :
    ((alarmStep last ps t).1 = true →
      (∃ p ∈ ps, 98 ≤ patientScore p) ∧ last + 9000 ≤ t) ∧
    ((∀ p ∈ ps, patientScore p < 98) → (alarmStep last ps t).1 = false) ∧
    (∀ evs, List.Chain' (fun a b => a + 9000 ≤ b) (alarmRun last evs)) := by
  refine ⟨alarmStep_fired last ps t, fun hall => ?_, fun evs => alarmRun_chain evs last⟩
  unfold alarmStep
  by_cases hemp : ps.isEmpty
  · simp [hemp]
  · by_cases hcd : t - last < 9000
    · simp [hemp, hcd]
    · have hf : ps.find? (fun p => decide (98 ≤ patientScore p)) = none := by
        rw [List.find?_eq_none]
        intro p hp
        simpa using not_le.2 (hall p hp)
      simp [hemp, hcd, hf]

/-- A critical patient (score 99) and a stable one (score 50). -/
def pHigh : AlarmPatient := ⟨some 99, none, some "A", "P1"⟩

/-- A stable patient with score 50 in the `riskScore` field. -/
def pLow : AlarmPatient := ⟨none, some 50, none, "P2"⟩

/-- Concrete check of C10: with a critical patient at t = 9000 the
alarm fires (score 99 found, cooldown satisfied); with only a stable
patient no alarm fires even long after the last alarm. -/
theorem useAlarm_cooldown_witness :
    ((∃ p ∈ [pHigh], 98 ≤ patientScore p) ∧ (0:ℤ) + 9000 ≤ 9000) ∧
    (alarmStep 0 [pLow] 20000).1 = false :=
  ⟨(useAlarm_cooldown 0 [pHigh] 9000).1 (by decide),
   (useAlarm_cooldown 0 [pLow] 20000).2.1 (by decide)⟩

end VitalGuard
